import Mathlib

/-!
Verification development for the FTSE100 historical-data scraper
(`scraping-scripts/ftse100_scraper_part_2.py`).

The core functions are shallowly embedded as executable Lean definitions:

* `months_between_date` — the date-window calculator (string dates parsed
  as in `datetime.strptime(_, "%Y-%m-%d")`, failure modelled by `Option`);
* `common_constituents` — the constituent filter (the pandas label slice
  `.loc[start:end]` is modelled as the inclusive date-window filter, and
  `dropna` as dropping rows whose symbol field is missing);
* `match_company_symbol` — the batched constituent/symbol matcher
  (`pd.merge(..., on='Company')` modelled as an inner join);
* `scrape_constituents_symbols` — the symbol resolver, with the external
  `investpy.search_quotes` call abstracted as an oracle
  `lookup : String → Option String` (`none` = the call raised);
* `scrape_daily_returns` — the returns aggregator, with the per-symbol
  search-and-retrieve pair abstracted as an oracle
  `fetch : String → Option (List (Date × Int))` returning the raw
  (descending) series; percentage-change values are taken from `Int`
  since no property inspects them numerically.

Row order of the pandas outer merge and the ordering of `value_counts`
keys are not modelled; every property below is insensitive to row order.
-/

/-- A calendar date, as produced by `datetime.strptime(s, "%Y-%m-%d")`. -/
structure Date where
  year : Nat
  month : Nat
  day : Nat
deriving DecidableEq, Repr

/-- Lexicographic comparison of dates, mirroring `datetime` ordering. -/
def Date.leb (a b : Date) : Bool :=
  (a.year < b.year) ||
    (a.year = b.year &&
      ((a.month < b.month) || (a.month = b.month && a.day ≤ b.day)))

/-- Split a character list on the `-` separator (the `%Y-%m-%d` field
separator of `strptime`). -/
def splitDash : List Char → List (List Char)
  | [] => [[]]
  | c :: cs =>
      let r := splitDash cs
      if c = '-' then [] :: r else (c :: r.headD []) :: r.tail

/-- A decimal digit's value, `none` for a non-digit character. -/
def charDigit (c : Char) : Option Nat :=
  if '0' ≤ c ∧ c ≤ '9' then some (c.toNat - Char.toNat '0') else none

/-- Read a non-empty all-digit character list as a natural number. -/
def digitsToNatAux (acc : Nat) : List Char → Option Nat
  | [] => some acc
  | c :: cs =>
      match charDigit c with
      | some d => digitsToNatAux (acc * 10 + d) cs
      | none => none

/-- Read a character list as a decimal number; empty or non-digit input
fails. -/
def digitsToNat : List Char → Option Nat
  | [] => none
  | c :: cs => digitsToNatAux 0 (c :: cs)

/-- Parse a `"yyyy-mm-dd"` string as `datetime.strptime(s, "%Y-%m-%d")`
does, `none` when the string does not parse.  Month-length and leap-year
refinements of `strptime`'s day validation are not modelled (no property
below depends on them). -/
def parseDate (s : String) : Option Date :=
  match (splitDash s.toList).map digitsToNat with
  | [some y, some m, some d] =>
      if 1 ≤ m ∧ m ≤ 12 ∧ 1 ≤ d ∧ d ≤ 31 then some ⟨y, m, d⟩ else none
  | _ => none

/-- The month-count arithmetic of `months_between_date`, on parsed dates:
`(end.year - start.year) * 12 + (end.month - start.month) + 1`. -/
def monthsBetween (s e : Date) : Int :=
  ((e.year : Int) - (s.year : Int)) * 12 + ((e.month : Int) - (s.month : Int)) + 1

/-- `months_between_date(start_date, end_date)`: parse both strings and
return the month count; a `strptime` failure aborts the calculation
(`none`). -/
def months_between_date (start_date end_date : String) : Option Int :=
  match parseDate end_date, parseDate start_date with
  | some e, some s => some (monthsBetween s e)
  | _, _ => none

/-- A membership-table row as consumed by `common_constituents`: the
`Date` index value plus the `Symbol` column, `none` when the field is
missing (such rows are dropped by `dropna`). -/
structure MRow where
  date : Date
  symbol : Option String
deriving DecidableEq, Repr

/-- The symbol column of `constituents.loc[start:end].dropna(axis=0, how='any')`:
rows inside the closed date window whose symbol is present. -/
def windowSymbols (tbl : List MRow) (ds de : Date) : List String :=
  (tbl.filter (fun r => Date.leb ds r.date && Date.leb r.date de)).filterMap
    (fun r => r.symbol)

/-- `common_constituents(constituents, start_date, end_date)`: restrict to
the closed window, drop rows with missing fields, count occurrences per
symbol (`value_counts`) and keep the symbols whose count equals the month
count `f` of `months_between_date`.  A date-parse failure propagates
(`none`). -/
def common_constituents (tbl : List MRow) (start_date end_date : String) :
    Option (List String) :=
  match parseDate start_date, parseDate end_date with
  | some ds, some de =>
      let syms := windowSymbols tbl ds de
      some ((syms.dedup).filter
        (fun c => ((syms.count c : Int) = monthsBetween ds de : Bool)))
  | _, _ => none

/-- A six-month membership table: company A appears in all six months of
the first half of 2020, company B only in the first five. -/
def sixMonthTable : List MRow :=
  [⟨⟨2020, 1, 15⟩, some "A"⟩, ⟨⟨2020, 2, 15⟩, some "A"⟩, ⟨⟨2020, 3, 15⟩, some "A"⟩,
   ⟨⟨2020, 4, 15⟩, some "A"⟩, ⟨⟨2020, 5, 15⟩, some "A"⟩, ⟨⟨2020, 6, 15⟩, some "A"⟩,
   ⟨⟨2020, 1, 15⟩, some "B"⟩, ⟨⟨2020, 2, 15⟩, some "B"⟩, ⟨⟨2020, 3, 15⟩, some "B"⟩,
   ⟨⟨2020, 4, 15⟩, some "B"⟩, ⟨⟨2020, 5, 15⟩, some "B"⟩]

/-- A three-month membership table with A and B interleaved, both present
every month. -/
def interleavedTable : List MRow :=
  [⟨⟨2020, 1, 15⟩, some "A"⟩, ⟨⟨2020, 1, 15⟩, some "B"⟩,
   ⟨⟨2020, 2, 15⟩, some "A"⟩, ⟨⟨2020, 2, 15⟩, some "B"⟩,
   ⟨⟨2020, 3, 15⟩, some "A"⟩, ⟨⟨2020, 3, 15⟩, some "B"⟩]

/-- A membership row as consumed by the matcher and the resolver: the
`Date` and `Company` columns. -/
structure CRow where
  date : Date
  company : String
deriving DecidableEq, Repr

/-- A symbol-mapping row: the `Company` and `Symbol` columns; an empty
symbol records a failed resolution. -/
structure SRow where
  company : String
  symbol : String
deriving DecidableEq, Repr

/-- A matched row: `Date`, `Company` and `Symbol` columns. -/
structure MatchedRow where
  date : Date
  company : String
  symbol : String
deriving DecidableEq, Repr

/-- `pd.merge(cs, ss, on='Company')`: the inner join on the company key;
each membership row pairs with every mapping row bearing the same
company. -/
def innerJoin (cs : List CRow) (ss : List SRow) : List MatchedRow :=
  cs.flatMap (fun c =>
    (ss.filter (fun s => s.company == c.company)).map
      (fun s => ⟨c.date, c.company, s.symbol⟩))

/-- `match_company_symbol(constituents, symbols)`: merge the mapping table
onto the slices `constituents.iloc[i*100:(i+1)*100]` for
`i in range(len(constituents) // 100)` and concatenate the merged
batches. -/
def match_company_symbol (constituents : List CRow) (symbols : List SRow) :
    List MatchedRow :=
  (List.range (constituents.length / 100)).flatMap
    (fun i => innerJoin ((constituents.drop (i * 100)).take 100) symbols)

/-- `constituents.drop_duplicates('Company')`: keep the first row of each
company. -/
def dropDupCompanyAux (seen : List String) : List CRow → List CRow
  | [] => []
  | c :: rest =>
      if c.company ∈ seen then dropDupCompanyAux seen rest
      else c :: dropDupCompanyAux (c.company :: seen) rest

/-- The resolver's loop: for each deduplicated row query the lookup
oracle; on success append the returned symbol, on failure (the external
call raised) append an empty symbol and record the company in the error
table. -/
def resolveLoop (lookup : String → Option String) :
    List CRow → List SRow × List String
  | [] => ([], [])
  | c :: rest =>
      let r := resolveLoop lookup rest
      match lookup c.company with
      | some sym => (⟨c.company, sym⟩ :: r.1, r.2)
      | none => (⟨c.company, ""⟩ :: r.1, c.company :: r.2)

/-- `scrape_constituents_symbols(constituents)` with the external
`investpy.search_quotes` call abstracted as `lookup` (`none` models the
call raising). -/
def scrape_constituents_symbols (lookup : String → Option String)
    (constituents : List CRow) : List SRow × List String :=
  resolveLoop lookup (dropDupCompanyAux [] constituents)

/-- A concrete lookup oracle that fails on company `"B"` only. -/
def exLookup (n : String) : Option String :=
  if n = "B" then none else some "SYM"

/-- A row of the wide returns table: the `Date` key plus the populated
symbol columns.  A symbol absent from `vals` has a gap (pandas `NaN`) on
that date.  Percentage-change values are drawn from `Int`; no property
below inspects them numerically. -/
structure RRow where
  date : Date
  vals : List (String × Int)
deriving DecidableEq, Repr

/-- `constituents[["Date", "Symbol"]].drop_duplicates("Symbol")`: keep the
first row of each symbol as a `(Date, Symbol)` pair. -/
def dropDupSymbolAux (seen : List String) :
    List MatchedRow → List (Date × String)
  | [] => []
  | r :: rest =>
      if r.symbol ∈ seen then dropDupSymbolAux seen rest
      else (r.date, r.symbol) :: dropDupSymbolAux (r.symbol :: seen) rest

/-- `pd.merge(t, returns, how='outer', on='Date')`, where `returns` has the
columns `Date` and the single symbol column `sym`: each row of `t` pairs
with every series entry on its date (keeping its old values and gaining
`sym`'s value), a row with no matching entry is kept unchanged, and series
entries whose date is absent from `t` become new rows carrying only the
`sym` column.  (The key reordering pandas applies to outer-merge results
is not modelled; every property proved below is insensitive to row
order.) -/
def mergeOuter (t : List RRow) (sym : String) (ser : List (Date × Int)) :
    List RRow :=
  (t.flatMap (fun r =>
    if (ser.filter (fun p => p.1 == r.date)).isEmpty then [r]
    else (ser.filter (fun p => p.1 == r.date)).map
      (fun p => ⟨r.date, r.vals ++ [(sym, p.2)]⟩)))
  ++ ((ser.filter (fun p => t.all (fun r => !(r.date == p.1)))).map
      (fun p => ⟨p.1, [(sym, p.2)]⟩))

/-- The aggregator's loop over the symbols after the first: fetch, reverse
(`.iloc[::-1]`) and outer-merge; a failed fetch is swallowed and the
symbol skipped. -/
def returnsLoop (fetch : String → Option (List (Date × Int)))
    (t : List RRow) : List (Date × String) → List RRow
  | [] => t
  | s :: rest =>
      match fetch s.2 with
      | none => returnsLoop fetch t rest
      | some ser => returnsLoop fetch (mergeOuter t s.2 ser.reverse) rest

/-- `scrape_daily_returns(constituents, start, end)` with the per-symbol
search-and-retrieve pair abstracted as the oracle `fetch` (`none` models a
raised exception; the window arguments are fixed inside the oracle; the
series arrives in descending date order and is reversed).  The first
symbol is fetched outside the `try`, so its failure — like an empty symbol
table — aborts the whole call (`none`). -/
def scrape_daily_returns (fetch : String → Option (List (Date × Int)))
    (constituents : List MatchedRow) : Option (List RRow) :=
  match dropDupSymbolAux [] constituents with
  | [] => none
  | s0 :: rest =>
      match fetch s0.2 with
      | none => none
      | some ser0 =>
          some (returnsLoop fetch
            (ser0.reverse.map (fun p => ⟨p.1, [(s0.2, p.2)]⟩)) rest)

/-- The trading dates a symbol entry contributes: its fetched series'
dates (none for a failed fetch). -/
def datesOf (fetch : String → Option (List (Date × Int)))
    (s : Date × String) : List Date :=
  ((fetch s.2).getD []).map (fun p => p.1)

/-- Invariant of the aggregator's accumulating table after the symbol
entries `ps` have been processed: dates are distinct, the date set is the
union of the processed symbols' trading dates, each processed symbol's
column is populated exactly on its own trading dates, and every populated
cell names a processed symbol. -/
def aggInv (fetch : String → Option (List (Date × Int)))
    (ps : List (Date × String)) (t : List RRow) : Prop :=
  (t.map RRow.date).Nodup ∧
  (∀ d, (∃ r ∈ t, r.date = d) ↔ ∃ s ∈ ps, d ∈ datesOf fetch s) ∧
  (∀ s ∈ ps, ∀ r ∈ t,
    ((∃ v, (s.2, v) ∈ r.vals) ↔ r.date ∈ datesOf fetch s)) ∧
  (∀ r ∈ t, ∀ p ∈ r.vals, p.1 ∈ ps.map (fun s => s.2))

/-- A concrete two-symbol fetch oracle: `"X"` trades on days 1–3 and `"Y"`
on days 2–4 of January 2014 (series arrive date-descending). -/
def exFetchXY (n : String) : Option (List (Date × Int)) :=
  if n = "X" then
    some [(⟨2014, 1, 3⟩, 13), (⟨2014, 1, 2⟩, 12), (⟨2014, 1, 1⟩, 11)]
  else if n = "Y" then
    some [(⟨2014, 1, 4⟩, 24), (⟨2014, 1, 3⟩, 23), (⟨2014, 1, 2⟩, 22)]
  else none

/-- A matched table carrying the two symbols `"X"` and `"Y"`. -/
def exTblXY : List MatchedRow :=
  [⟨⟨2014, 1, 1⟩, "CX", "X"⟩, ⟨⟨2014, 1, 1⟩, "CY", "Y"⟩]

/-- The aggregator's output on `exTblXY`/`exFetchXY`: the date union
1–4 with `"X"` absent on day 4 and `"Y"` absent on day 1. -/
def exResultXY : List RRow :=
  [⟨⟨2014, 1, 1⟩, [("X", 11)]⟩,
   ⟨⟨2014, 1, 2⟩, [("X", 12), ("Y", 22)]⟩,
   ⟨⟨2014, 1, 3⟩, [("X", 13), ("Y", 23)]⟩,
   ⟨⟨2014, 1, 4⟩, [("Y", 24)]⟩]

/-- A concrete fetch oracle: symbol `"AAA"` has a two-day series, symbol
`"BBB"` fails. -/
def exFetch (n : String) : Option (List (Date × Int)) :=
  if n = "AAA" then some [(⟨2014, 1, 2⟩, 5), (⟨2014, 1, 1⟩, 3)] else none

/-- C4: for every pair of valid dates with start ≤ end, `months_between_date`
returns exactly `(end.year - start.year) * 12 + (end.month - start.month) + 1`;
for same-year pairs this is `end.month - start.month + 1`, and on the
one-year span 2014-01-31 to 2014-12-31 it returns 12. -/
theorem c4_months_between_formula (sd ed : String) (ds de : Date)
    (hs : parseDate sd = some ds) (he : parseDate ed = some de)
    (hle : Date.leb ds de = true) :
    months_between_date sd ed =
      some (((de.year : Int) - (ds.year : Int)) * 12 +
        ((de.month : Int) - (ds.month : Int)) + 1) ∧
    (ds.year = de.year →
      months_between_date sd ed =
        some ((de.month : Int) - (ds.month : Int) + 1)) ∧
    months_between_date "2014-01-31" "2014-12-31" = some 12 := by
  refine ⟨?_, ?_, by decide⟩
  · simp [months_between_date, hs, he, monthsBetween]
  · intro hy
    simp [months_between_date, hs, he, monthsBetween, hy]

/-- Witness for C4 at the concrete pair 2014-01-31 ≤ 2014-12-31. -/
theorem c4_witness :
    months_between_date "2014-01-31" "2014-12-31" = some 12 :=
  (c4_months_between_formula "2014-01-31" "2014-12-31"
    ⟨2014, 1, 31⟩ ⟨2014, 12, 31⟩ (by decide) (by decide) (by decide)).2.2

/-- Characterisation of membership in the filter's output: a symbol is kept
exactly when it occurs in the window and its occurrence count equals the
month count. -/
theorem mem_common_constituents {tbl : List MRow} {sd ed : String} {ds de : Date}
    (hs : parseDate sd = some ds) (he : parseDate ed = some de)
    {out : List String} (hout : common_constituents tbl sd ed = some out)
    (c : String) :
    c ∈ out ↔ 0 < (windowSymbols tbl ds de).count c ∧
      ((windowSymbols tbl ds de).count c : Int) = monthsBetween ds de := by
  unfold common_constituents at hout
  rw [hs, he] at hout
  simp only [Option.some.injEq] at hout
  subst hout
  simp [List.mem_filter, List.mem_dedup, List.count_pos_iff]

/-- C5: the filter keeps a symbol iff its occurrence count in the window
(after dropping rows with missing fields) equals exactly the month count —
not at-least; on the six-month table where A appears in all six months and
B in only five, the result is {A}, excluding B. -/
theorem c5_exact_month_count (tbl : List MRow) (sd ed : String) (ds de : Date)
    (hs : parseDate sd = some ds) (he : parseDate ed = some de)
    (out : List String) (hout : common_constituents tbl sd ed = some out) :
    (∀ c, c ∈ out ↔ 0 < (windowSymbols tbl ds de).count c ∧
      ((windowSymbols tbl ds de).count c : Int) = monthsBetween ds de) ∧
    common_constituents sixMonthTable "2020-01-01" "2020-06-30" = some ["A"] :=
  ⟨fun c => mem_common_constituents hs he hout c, by decide⟩

/-- Witness for C5 on the six-month table. -/
theorem c5_witness :
    ("A" ∈ (["A"] : List String)) ∧
    common_constituents sixMonthTable "2020-01-01" "2020-06-30" = some ["A"] := by
  have h := c5_exact_month_count sixMonthTable "2020-01-01" "2020-06-30"
    ⟨2020, 1, 1⟩ ⟨2020, 6, 30⟩ (by decide) (by decide) ["A"] (by decide)
  exact ⟨(h.1 "A").mpr (by decide), h.2⟩

/-- C6: the filter's output, as a set, is invariant under permutation of
the membership table's rows. -/
theorem c6_row_order_invariant (tbl₁ tbl₂ : List MRow) (sd ed : String)
    (hperm : tbl₁.Perm tbl₂) (out₁ out₂ : List String)
    (h₁ : common_constituents tbl₁ sd ed = some out₁)
    (h₂ : common_constituents tbl₂ sd ed = some out₂) :
    ∀ c, c ∈ out₁ ↔ c ∈ out₂ := by
  cases hps : parseDate sd with
  | none => simp [common_constituents, hps] at h₁
  | some ds =>
    cases hpe : parseDate ed with
    | none => simp [common_constituents, hps, hpe] at h₁
    | some de =>
      have hw : (windowSymbols tbl₁ ds de).Perm (windowSymbols tbl₂ ds de) :=
        List.Perm.filterMap _ (List.Perm.filter _ hperm)
      intro c
      rw [mem_common_constituents hps hpe h₁ c,
        mem_common_constituents hps hpe h₂ c, hw.count_eq c]

/-- Witness for C6: the interleaved table and its reversal give the same
symbols (as sets) even though the output lists differ. -/
theorem c6_witness :
    ("A" ∈ (["A", "B"] : List String)) ↔ ("A" ∈ (["B", "A"] : List String)) :=
  c6_row_order_invariant interleavedTable interleavedTable.reverse
    "2020-01-01" "2020-03-31" (List.reverse_perm interleavedTable).symm
    ["A", "B"] ["B", "A"] (by decide) (by decide) "A"

/-- C9: every symbol the filter returns occurs in the input membership
table; filtering never invents an identifier. -/
theorem c9_output_subset_input (tbl : List MRow) (sd ed : String)
    (out : List String) (c : String)
    (hout : common_constituents tbl sd ed = some out) (hc : c ∈ out) :
    ∃ r ∈ tbl, r.symbol = some c := by
  cases hps : parseDate sd with
  | none => simp [common_constituents, hps] at hout
  | some ds =>
    cases hpe : parseDate ed with
    | none => simp [common_constituents, hps, hpe] at hout
    | some de =>
      have hmem : c ∈ windowSymbols tbl ds de :=
        List.count_pos_iff.mp ((mem_common_constituents hps hpe hout c).mp hc).1
      obtain ⟨r, hr, hsym⟩ := List.mem_filterMap.mp hmem
      exact ⟨r, (List.mem_filter.mp hr).1, hsym⟩

/-- Witness for C9 on the six-month table. -/
theorem c9_witness : ∃ r ∈ sixMonthTable, r.symbol = some "A" :=
  c9_output_subset_input sixMonthTable "2020-01-01" "2020-06-30" ["A"] "A"
    (by decide) (by decide)

theorem innerJoin_append (a b : List CRow) (ss : List SRow) :
    innerJoin (a ++ b) ss = innerJoin a ss ++ innerJoin b ss := by
  simp [innerJoin]

theorem take_add_split {α : Type _} (l : List α) (a b : Nat) :
    l.take (a + b) = l.take a ++ (l.drop a).take b := by
  conv_lhs => rw [← List.take_append_drop a (l.take (a + b))]
  rw [List.take_take, Nat.min_eq_left (Nat.le_add_right a b), ← List.take_drop]

/-- The concatenation of the first `c` 100-row batch joins is the join of
the first `100 * c` rows. -/
theorem flatMap_range_chunks (l : List CRow) (ss : List SRow) (c : Nat) :
    (List.range c).flatMap
        (fun i => innerJoin ((l.drop (i * 100)).take 100) ss) =
      innerJoin (l.take (100 * c)) ss := by
  induction c with
  | zero => simp [innerJoin]
  | succ n ih =>
    rw [List.range_succ, List.flatMap_append, ih]
    simp only [List.flatMap_cons, List.flatMap_nil, List.append_nil]
    rw [← innerJoin_append, show 100 * (n + 1) = 100 * n + 100 by ring,
      take_add_split, Nat.mul_comm 100 n]

/-- C10: only the first `100 * (n / 100)` rows of an `n`-row membership
table participate in the join; in particular a table with fewer than 100
rows yields an empty result. -/
theorem c10_trailing_rows_never_join (constituents : List CRow)
    (symbols : List SRow) :
    match_company_symbol constituents symbols =
      innerJoin (constituents.take (100 * (constituents.length / 100))) symbols ∧
    (constituents.length < 100 → match_company_symbol constituents symbols = []) := by
  refine ⟨flatMap_range_chunks constituents symbols _, fun h => ?_⟩
  simp [match_company_symbol, Nat.div_eq_of_lt h]

/-- Witness for C10 on a one-row table. -/
theorem c10_witness :
    match_company_symbol [⟨⟨2014, 1, 31⟩, "A"⟩] [⟨"A", "AAA"⟩] = [] :=
  (c10_trailing_rows_never_join [⟨⟨2014, 1, 31⟩, "A"⟩] [⟨"A", "AAA"⟩]).2
    (by decide)

/-- C1 (code bug): on a one-row membership table with a matching mapping
row, the single unbounded inner join has one row but
`match_company_symbol` returns an empty table, so its output differs from
the unbounded join and is not invariant under batch size. -/
theorem c1_batching_loses_trailing_rows :
    match_company_symbol [⟨⟨2014, 1, 31⟩, "A"⟩] [⟨"A", "AAA"⟩] = [] ∧
    innerJoin [⟨⟨2014, 1, 31⟩, "A"⟩] [⟨"A", "AAA"⟩] =
      [⟨⟨2014, 1, 31⟩, "A", "AAA"⟩] := by
  decide

theorem dropDupCompanyAux_eq_self (l : List CRow) :
    ∀ seen : List String, (l.map (fun c => c.company)).Nodup →
      (∀ c ∈ l, c.company ∉ seen) → dropDupCompanyAux seen l = l := by
  induction l with
  | nil => intro seen _ _; rfl
  | cons c rest ih =>
    intro seen hnd hs
    rw [List.map_cons, List.nodup_cons] at hnd
    rw [dropDupCompanyAux, if_neg (hs c (List.mem_cons_self c rest))]
    refine congrArg (c :: ·) (ih _ hnd.2 fun x hx => ?_)
    intro hmem
    rcases List.mem_cons.mp hmem with h | h
    · exact hnd.1 (h ▸ List.mem_map_of_mem (fun r => r.company) hx)
    · exact hs x (List.mem_cons_of_mem c hx) h

theorem resolveLoop_spec (lookup : String → Option String) (l : List CRow) :
    resolveLoop lookup l =
      (l.map (fun c => ⟨c.company, (lookup c.company).getD ""⟩),
       (l.filter (fun c => (lookup c.company).isNone)).map
         (fun c => c.company)) := by
  induction l with
  | nil => rfl
  | cons c rest ih =>
    cases h : lookup c.company <;>
      simp [resolveLoop, ih, h, List.filter_cons]

/-- C7: on distinct company names the resolver returns one mapping row per
input company in input order (company preserved, symbol empty exactly
when the lookup failed) and an error list of exactly the failed
companies in input order. -/
theorem c7_resolver_contract (lookup : String → Option String)
    (tbl : List CRow) (hnd : (tbl.map (fun c => c.company)).Nodup)
    (hs : ∀ n s, lookup n = some s → s ≠ "") :
    (scrape_constituents_symbols lookup tbl).1 =
      tbl.map (fun c => ⟨c.company, (lookup c.company).getD ""⟩) ∧
    (∀ r ∈ (scrape_constituents_symbols lookup tbl).1,
      (r.symbol = "" ↔ (lookup r.company).isNone = true)) ∧
    (scrape_constituents_symbols lookup tbl).2 =
      (tbl.filter (fun c => (lookup c.company).isNone)).map
        (fun c => c.company) := by
  have hdd : dropDupCompanyAux [] tbl = tbl :=
    dropDupCompanyAux_eq_self tbl [] hnd (by simp)
  unfold scrape_constituents_symbols
  rw [hdd, resolveLoop_spec]
  refine ⟨rfl, fun r hr => ?_, rfl⟩
  obtain ⟨c, _, rfl⟩ := List.mem_map.mp hr
  cases h : lookup c.company with
  | none => simp [h]
  | some s => simp [h, hs c.company s h]

/-- Witness for C7 with three companies and a failure on the second. -/
theorem c7_witness :
    (scrape_constituents_symbols exLookup
        [⟨⟨2014, 1, 31⟩, "A"⟩, ⟨⟨2014, 1, 31⟩, "B"⟩, ⟨⟨2014, 1, 31⟩, "C"⟩]).1 =
      [⟨"A", "SYM"⟩, ⟨"B", ""⟩, ⟨"C", "SYM"⟩] ∧
    (scrape_constituents_symbols exLookup
        [⟨⟨2014, 1, 31⟩, "A"⟩, ⟨⟨2014, 1, 31⟩, "B"⟩, ⟨⟨2014, 1, 31⟩, "C"⟩]).2 =
      ["B"] := by
  have h := c7_resolver_contract exLookup
    [⟨⟨2014, 1, 31⟩, "A"⟩, ⟨⟨2014, 1, 31⟩, "B"⟩, ⟨⟨2014, 1, 31⟩, "C"⟩]
    (by decide)
    (by
      intro n s hns
      unfold exLookup at hns
      split at hns
      · cases hns
      · cases hns; decide)
  rw [h.1, h.2.2]
  decide

theorem mem_innerJoin {cs : List CRow} {ss : List SRow} {c : CRow} {s : SRow}
    (hc : c ∈ cs) (hs : s ∈ ss) (h : s.company = c.company) :
    (⟨c.date, c.company, s.symbol⟩ : MatchedRow) ∈ innerJoin cs ss := by
  refine List.mem_flatMap.mpr ⟨c, hc, List.mem_map.mpr ⟨s, ?_, rfl⟩⟩
  exact List.mem_filter.mpr ⟨hs, by simp [h]⟩

/-- C3 is false on the code: the join is on the company key only, so a
membership row whose company resolved to the empty symbol is still
matched.  With 100 copies of a row for company `"A"` and a lookup that
always fails, the resolver's mapping contains `("A", "")` and the
matcher's output contains the row `("A", "")` — it is not dropped. -/
theorem c3_counterexample :
    (⟨"A", ""⟩ : SRow) ∈
      (scrape_constituents_symbols (fun _ => none)
        (List.replicate 100 ⟨⟨2014, 1, 31⟩, "A"⟩)).1 ∧
    (⟨⟨2014, 1, 31⟩, "A", ""⟩ : MatchedRow) ∈
      match_company_symbol (List.replicate 100 ⟨⟨2014, 1, 31⟩, "A"⟩)
        (scrape_constituents_symbols (fun _ => none)
          (List.replicate 100 ⟨⟨2014, 1, 31⟩, "A"⟩)).1 := by
  decide

/-- C3 (amended): membership rows whose company carries an empty symbol in
the mapping table are retained by the join, paired with the empty symbol —
the inner join on the company key drops only rows whose company is absent
from the mapping table (and the rows beyond the last full 100-row
batch). -/
theorem c3_empty_symbol_rows_retained (tbl : List CRow) (mapping : List SRow)
    (r : CRow) (hr : r ∈ tbl.take (100 * (tbl.length / 100)))
    (hm : (⟨r.company, ""⟩ : SRow) ∈ mapping) :
    (⟨r.date, r.company, ""⟩ : MatchedRow) ∈ match_company_symbol tbl mapping := by
  unfold match_company_symbol
  rw [flatMap_range_chunks]
  exact mem_innerJoin hr hm rfl

/-- Witness for C3 (amended) on the 100-row table. -/
theorem c3_amended_witness :
    (⟨⟨2014, 1, 31⟩, "A", ""⟩ : MatchedRow) ∈
      match_company_symbol (List.replicate 100 ⟨⟨2014, 1, 31⟩, "A"⟩)
        [⟨"A", ""⟩] :=
  c3_empty_symbol_rows_retained (List.replicate 100 ⟨⟨2014, 1, 31⟩, "A"⟩)
    [⟨"A", ""⟩] ⟨⟨2014, 1, 31⟩, "A"⟩ (by decide) (by decide)

/-- Every populated cell of a merged table belongs either to the symbol
just merged in or to a cell already present. -/
theorem mergeOuter_vals_subset {t : List RRow} {sym : String}
    {ser : List (Date × Int)} {r : RRow} (hr : r ∈ mergeOuter t sym ser)
    {p : String × Int} (hp : p ∈ r.vals) :
    p.1 = sym ∨ ∃ r0 ∈ t, p ∈ r0.vals := by
  rcases List.mem_append.mp hr with h | h
  · obtain ⟨r0, hr0, hmem⟩ := List.mem_flatMap.mp h
    by_cases he : ((ser.filter (fun q => q.1 == r0.date)).isEmpty : Bool)
    · rw [if_pos he] at hmem
      rcases List.mem_singleton.mp hmem with rfl
      exact Or.inr ⟨_, hr0, hp⟩
    · rw [if_neg he] at hmem
      obtain ⟨q, _, rfl⟩ := List.mem_map.mp hmem
      rcases List.mem_append.mp hp with h' | h'
      · exact Or.inr ⟨r0, hr0, h'⟩
      · rcases List.mem_singleton.mp h' with rfl
        exact Or.inl rfl
  · obtain ⟨q, _, rfl⟩ := List.mem_map.mp h
    rcases List.mem_singleton.mp hp with rfl
    exact Or.inl rfl

/-- Column soundness is preserved by the aggregator's loop: if every
populated cell of `t` names a successfully fetched symbol, the same holds
after processing the remaining symbols. -/
theorem returnsLoop_cols (fetch : String → Option (List (Date × Int)))
    (rest : List (Date × String)) :
    ∀ t : List RRow, (∀ r ∈ t, ∀ p ∈ r.vals, (fetch p.1).isSome = true) →
      ∀ r ∈ returnsLoop fetch t rest, ∀ p ∈ r.vals,
        (fetch p.1).isSome = true := by
  induction rest with
  | nil => intro t ht; exact ht
  | cons s rest ih =>
    intro t ht
    cases hf : fetch s.2 with
    | none =>
      rw [returnsLoop, hf]
      exact ih t ht
    | some ser =>
      rw [returnsLoop, hf]
      refine ih _ fun r hr p hp => ?_
      rcases mergeOuter_vals_subset hr hp with h | ⟨r0, hr0, hp0⟩
      · rw [h, hf]; rfl
      · exact ht r0 hr0 p hp0

/-- Case analysis for membership in an outer merge: a merged row is an
untouched old row (no series entry on its date), an old row augmented
with the new symbol's value, or a fresh row for a date the old table
lacked. -/
theorem mem_mergeOuter_iff {t : List RRow} {sym : String}
    {ser : List (Date × Int)} {r' : RRow} :
    r' ∈ mergeOuter t sym ser ↔
      (∃ r ∈ t, (∀ p ∈ ser, p.1 ≠ r.date) ∧ r' = r) ∨
      (∃ r ∈ t, ∃ p ∈ ser, p.1 = r.date ∧
        r' = ⟨r.date, r.vals ++ [(sym, p.2)]⟩) ∨
      (∃ p ∈ ser, (∀ r ∈ t, r.date ≠ p.1) ∧ r' = ⟨p.1, [(sym, p.2)]⟩) := by
  unfold mergeOuter
  rw [List.mem_append, List.mem_flatMap]
  constructor
  · rintro (⟨r, hr, hmem⟩ | h)
    · by_cases he : ((ser.filter (fun q => q.1 == r.date)).isEmpty : Bool)
      · rw [if_pos he] at hmem
        rcases List.mem_singleton.mp hmem with rfl
        refine Or.inl ⟨_, hr, fun p hp hpd => ?_, rfl⟩
        have := List.filter_eq_nil_iff.mp (List.isEmpty_iff.mp he) p hp
        simp [hpd] at this
      · rw [if_neg he] at hmem
        obtain ⟨q, hq, rfl⟩ := List.mem_map.mp hmem
        obtain ⟨hq₁, hq₂⟩ := List.mem_filter.mp hq
        exact Or.inr (Or.inl ⟨r, hr, q, hq₁, by simpa using hq₂, rfl⟩)
    · obtain ⟨q, hq, rfl⟩ := List.mem_map.mp h
      obtain ⟨hq₁, hq₂⟩ := List.mem_filter.mp hq
      refine Or.inr (Or.inr ⟨q, hq₁, fun r hr => ?_, rfl⟩)
      have := List.all_eq_true.mp hq₂ r hr
      simpa using this
  · rintro (⟨r, hr, hnone, rfl⟩ | ⟨r, hr, q, hq, hqd, rfl⟩ | ⟨q, hq, hnone, rfl⟩)
    · refine Or.inl ⟨r', hr, ?_⟩
      have he : (ser.filter (fun q => q.1 == r'.date)) = [] :=
        List.filter_eq_nil_iff.mpr fun p hp => by simp [hnone p hp]
      rw [if_pos (List.isEmpty_iff.mpr he)]
      exact List.mem_singleton.mpr rfl
    · refine Or.inl ⟨r, hr, ?_⟩
      have hqf : q ∈ ser.filter (fun q => q.1 == r.date) :=
        List.mem_filter.mpr ⟨hq, by simp [hqd]⟩
      rw [if_neg (by simpa [List.isEmpty_iff] using List.ne_nil_of_mem hqf)]
      exact List.mem_map.mpr ⟨q, hqf, rfl⟩
    · refine Or.inr (List.mem_map.mpr ⟨q, ?_, rfl⟩)
      refine List.mem_filter.mpr ⟨hq, List.all_eq_true.mpr fun r hr => ?_⟩
      simp [hnone r hr]

/-- When the series' dates are distinct, at most one entry matches any
given date. -/
theorem filter_date_length_le_one {ser : List (Date × Int)}
    (h : (ser.map (fun p => p.1)).Nodup) (d : Date) :
    (ser.filter (fun p => p.1 == d)).length ≤ 1 := by
  induction ser with
  | nil => simp
  | cons q ser ih =>
    rw [List.map_cons, List.nodup_cons] at h
    rw [List.filter_cons]
    by_cases hq : ((q.1 == d) : Bool)
    · rw [if_pos hq]
      have : ser.filter (fun p => p.1 == d) = [] := by
        refine List.filter_eq_nil_iff.mpr fun p hp hpd => h.1 ?_
        have hd : p.1 = d := by simpa using hpd
        have hqd : q.1 = d := by simpa using hq
        rw [hqd, ← hd]
        exact List.mem_map_of_mem (fun p => p.1) hp
      simp [this]
    · rw [if_neg hq]
      exact ih h.2

/-- With distinct series dates the left part of the outer merge keeps the
old table's date column unchanged. -/
theorem mergeOuter_left_dates {ser : List (Date × Int)} {sym : String}
    (hsnd : (ser.map (fun p => p.1)).Nodup) (t : List RRow) :
    (t.flatMap (fun r =>
      if (ser.filter (fun p => p.1 == r.date)).isEmpty then [r]
      else (ser.filter (fun p => p.1 == r.date)).map
        (fun p => ⟨r.date, r.vals ++ [(sym, p.2)]⟩))).map RRow.date =
      t.map RRow.date := by
  induction t with
  | nil => rfl
  | cons r t ih =>
    rw [List.flatMap_cons, List.map_append, ih, List.map_cons]
    by_cases he : ((ser.filter (fun p => p.1 == r.date)).isEmpty : Bool)
    · rw [if_pos he]; rfl
    · rw [if_neg he]
      have h1 := filter_date_length_le_one hsnd r.date
      have h0 : (ser.filter (fun p => p.1 == r.date)).length ≠ 0 := by
        intro h
        exact he (List.isEmpty_iff_length_eq_zero.mpr h)
      obtain ⟨q, hq⟩ :=
        List.length_eq_one.mp (Nat.le_antisymm h1 (Nat.one_le_iff_ne_zero.mpr h0))
      rw [hq]
      rfl

/-- The merged table's dates are distinct when both inputs' dates are. -/
theorem mergeOuter_dates_nodup {t : List RRow} {sym : String}
    {ser : List (Date × Int)} (htnd : (t.map RRow.date).Nodup)
    (hsnd : (ser.map (fun p => p.1)).Nodup) :
    ((mergeOuter t sym ser).map RRow.date).Nodup := by
  unfold mergeOuter
  rw [List.map_append, mergeOuter_left_dates hsnd]
  refine List.Nodup.append htnd ?_ ?_
  · rw [List.map_map]
    have hco : (RRow.date ∘ fun p : Date × Int =>
        (⟨p.1, [(sym, p.2)]⟩ : RRow)) = fun p => p.1 := rfl
    rw [hco]
    exact List.Nodup.sublist
      (List.Sublist.map (fun p => p.1) (List.filter_sublist ser)) hsnd
  · intro d hd1 hd2
    obtain ⟨x, hx, hxd⟩ := List.mem_map.mp hd2
    obtain ⟨q, hq, rfl⟩ := List.mem_map.mp hx
    obtain ⟨hq1, hq2⟩ := List.mem_filter.mp hq
    obtain ⟨r, hr, hrd⟩ := List.mem_map.mp hd1
    have := List.all_eq_true.mp hq2 r hr
    simp only [Bool.not_eq_true', beq_eq_false_iff_ne, ne_eq] at this
    exact this (by rw [hrd, ← hxd])

/-- The merged table's date set is the union of the old table's dates and
the series' dates. -/
theorem mergeOuter_dates_mem {t : List RRow} {sym : String}
    {ser : List (Date × Int)} (d : Date) :
    (∃ r' ∈ mergeOuter t sym ser, r'.date = d) ↔
      (∃ r ∈ t, r.date = d) ∨ ∃ p ∈ ser, p.1 = d := by
  constructor
  · rintro ⟨r', hr', rfl⟩
    rcases mem_mergeOuter_iff.mp hr' with
      ⟨r, hr, _, rfl⟩ | ⟨r, hr, q, hq, _, rfl⟩ | ⟨q, hq, _, rfl⟩
    · exact Or.inl ⟨_, hr, rfl⟩
    · exact Or.inl ⟨r, hr, rfl⟩
    · exact Or.inr ⟨q, hq, rfl⟩
  · rintro (⟨r, hr, rfl⟩ | ⟨q, hq, rfl⟩)
    · by_cases hex : ∃ p ∈ ser, p.1 = r.date
      · obtain ⟨p, hp, hpd⟩ := hex
        exact ⟨⟨r.date, r.vals ++ [(sym, p.2)]⟩,
          mem_mergeOuter_iff.mpr (Or.inr (Or.inl ⟨r, hr, p, hp, hpd, rfl⟩)), rfl⟩
      · push_neg at hex
        exact ⟨r, mem_mergeOuter_iff.mpr (Or.inl ⟨r, hr, hex, rfl⟩), rfl⟩
    · by_cases hex : ∃ r ∈ t, r.date = q.1
      · obtain ⟨r, hr, hrd⟩ := hex
        exact ⟨⟨r.date, r.vals ++ [(sym, q.2)]⟩,
          mem_mergeOuter_iff.mpr (Or.inr (Or.inl ⟨r, hr, q, hq, hrd.symm, rfl⟩)),
          hrd⟩
      · push_neg at hex
        exact ⟨⟨q.1, [(sym, q.2)]⟩,
          mem_mergeOuter_iff.mpr (Or.inr (Or.inr ⟨q, hq, hex, rfl⟩)), rfl⟩

/-- After merging, the new symbol's column is populated exactly on the
series' dates (provided the symbol was not already a column). -/
theorem mergeOuter_col_new {t : List RRow} {sym : String}
    {ser : List (Date × Int)}
    (hfresh : ∀ r ∈ t, ∀ v : Int, (sym, v) ∉ r.vals) {r' : RRow}
    (hr' : r' ∈ mergeOuter t sym ser) :
    (∃ v, (sym, v) ∈ r'.vals) ↔ ∃ p ∈ ser, p.1 = r'.date := by
  rcases mem_mergeOuter_iff.mp hr' with
    ⟨r, hr, hnone, rfl⟩ | ⟨r, hr, q, hq, hqd, rfl⟩ | ⟨q, hq, hnone, rfl⟩
  · constructor
    · rintro ⟨v, hv⟩
      exact absurd hv (hfresh _ hr v)
    · rintro ⟨p, hp, hpd⟩
      exact absurd hpd (hnone p hp)
  · exact ⟨fun _ => ⟨q, hq, hqd⟩, fun _ => ⟨q.2, by simp⟩⟩
  · exact ⟨fun _ => ⟨q, hq, rfl⟩, fun _ => ⟨q.2, by simp⟩⟩

/-- After merging, a pre-existing column is populated on a date exactly
when it was populated on that date before the merge. -/
theorem mergeOuter_col_old {t : List RRow} {sym : String}
    {ser : List (Date × Int)} (htnd : (t.map RRow.date).Nodup)
    {c : String} (hc : c ≠ sym) {r' : RRow}
    (hr' : r' ∈ mergeOuter t sym ser) :
    (∃ v, (c, v) ∈ r'.vals) ↔
      ∃ r ∈ t, r.date = r'.date ∧ ∃ v, (c, v) ∈ r.vals := by
  rcases mem_mergeOuter_iff.mp hr' with
    ⟨r, hr, hnone, rfl⟩ | ⟨r, hr, q, hq, hqd, rfl⟩ | ⟨q, hq, hnone, rfl⟩
  · constructor
    · rintro ⟨v, hv⟩
      exact ⟨_, hr, rfl, v, hv⟩
    · rintro ⟨r0, hr0, hd, v, hv⟩
      exact ⟨v, List.inj_on_of_nodup_map htnd hr0 hr hd ▸ hv⟩
  · constructor
    · rintro ⟨v, hv⟩
      rcases List.mem_append.mp hv with h | h
      · exact ⟨r, hr, rfl, v, h⟩
      · rcases List.mem_singleton.mp h with h'
        exact absurd (congrArg Prod.fst h') hc
    · rintro ⟨r0, hr0, hd, v, hv⟩
      have : r0 = r := List.inj_on_of_nodup_map htnd hr0 hr hd
      exact ⟨v, List.mem_append.mpr (Or.inl (this ▸ hv))⟩
  · constructor
    · rintro ⟨v, hv⟩
      rcases List.mem_singleton.mp hv with h'
      exact absurd (congrArg Prod.fst h') hc
    · rintro ⟨r0, hr0, hd, _, _⟩
      exact absurd hd (hnone r0 hr0)

/-- C2 is false on the code: the first symbol's fetch happens outside the
`try`, so if it fails the whole aggregator call fails instead of
returning a table (here: a one-symbol table with an always-failing
fetch). -/
theorem c2_counterexample :
    scrape_daily_returns (fun _ => none) [⟨⟨2014, 1, 31⟩, "A", "AAA"⟩] =
      none := by
  decide

/-- C2 (amended): if the fetch of the first distinct symbol succeeds the
aggregator returns a table without raising; any later symbol's fetch
failure is swallowed, and a symbol whose fetch fails contributes no
column (every populated cell names a successfully fetched symbol). -/
theorem c2_first_fetch_guards_result
    (fetch : String → Option (List (Date × Int))) (tbl : List MatchedRow)
    (s0 : Date × String) (rest : List (Date × String))
    (ser0 : List (Date × Int)) (hdd : dropDupSymbolAux [] tbl = s0 :: rest)
    (hf0 : fetch s0.2 = some ser0) :
    (∃ t, scrape_daily_returns fetch tbl = some t) ∧
    (∀ t, scrape_daily_returns fetch tbl = some t →
      ∀ r ∈ t, ∀ p ∈ r.vals, (fetch p.1).isSome = true) := by
  have hres : scrape_daily_returns fetch tbl =
      some (returnsLoop fetch
        (ser0.reverse.map (fun p => ⟨p.1, [(s0.2, p.2)]⟩)) rest) := by
    simp only [scrape_daily_returns, hdd, hf0]
  constructor
  · exact ⟨_, hres⟩
  · intro t ht r hr p hp
    rw [hres, Option.some.injEq] at ht
    subst ht
    refine returnsLoop_cols fetch rest _ (fun r' hr' q hq => ?_) r hr p hp
    obtain ⟨e, _, rfl⟩ := List.mem_map.mp hr'
    rcases List.mem_singleton.mp hq with rfl
    rw [hf0]; rfl

/-- A skipped symbol (failed fetch) preserves the invariant: it
contributes no dates and no column. -/
theorem aggInv_skip {fetch : String → Option (List (Date × Int))}
    {ps : List (Date × String)} {t : List RRow} {s : Date × String}
    (hinv : aggInv fetch ps t) (hf : fetch s.2 = none)
    (hfresh : s.2 ∉ ps.map (fun x => x.2)) :
    aggInv fetch (ps ++ [s]) t := by
  obtain ⟨h1, h2, h3, h4⟩ := hinv
  have hde : datesOf fetch s = [] := by simp [datesOf, hf]
  refine ⟨h1, fun d => ?_, fun x hx r hr => ?_, fun r hr p hp => ?_⟩
  · rw [h2 d]
    constructor
    · rintro ⟨x, hx, hdx⟩
      exact ⟨x, List.mem_append.mpr (Or.inl hx), hdx⟩
    · rintro ⟨x, hx, hdx⟩
      rcases List.mem_append.mp hx with h | h
      · exact ⟨x, h, hdx⟩
      · rcases List.mem_singleton.mp h with rfl
        rw [hde] at hdx
        cases hdx
  · rcases List.mem_append.mp hx with h | h
    · exact h3 x h r hr
    · rcases List.mem_singleton.mp h with rfl
      rw [hde]
      simp only [List.not_mem_nil, iff_false, not_exists]
      intro v hv
      exact hfresh (h4 r hr _ hv)
  · rw [List.map_append]
    exact List.mem_append.mpr (Or.inl (h4 r hr p hp))

/-- Merging a successfully fetched symbol preserves the invariant. -/
theorem aggInv_merge {fetch : String → Option (List (Date × Int))}
    {ps : List (Date × String)} {t : List RRow} {s : Date × String}
    {ser : List (Date × Int)}
    (hinv : aggInv fetch ps t) (hf : fetch s.2 = some ser)
    (hfresh : s.2 ∉ ps.map (fun x => x.2))
    (hsnd : (ser.map (fun p => p.1)).Nodup) :
    aggInv fetch (ps ++ [s]) (mergeOuter t s.2 ser.reverse) := by
  obtain ⟨h1, h2, h3, h4⟩ := hinv
  have hde : datesOf fetch s = ser.map (fun p => p.1) := by
    simp [datesOf, hf]
  have hrevnd : (ser.reverse.map (fun p => p.1)).Nodup := by
    rw [List.map_reverse]
    exact List.nodup_reverse.mpr hsnd
  have hfreshvals : ∀ r ∈ t, ∀ v : Int, (s.2, v) ∉ r.vals := by
    intro r hr v hv
    exact hfresh (h4 r hr _ hv)
  refine ⟨mergeOuter_dates_nodup h1 hrevnd, fun d => ?_,
    fun x hx r' hr' => ?_, fun r' hr' p hp => ?_⟩
  · rw [mergeOuter_dates_mem d, h2 d]
    constructor
    · rintro (⟨x, hx, hdx⟩ | ⟨q, hq, hqd⟩)
      · exact ⟨x, List.mem_append.mpr (Or.inl hx), hdx⟩
      · refine ⟨s, List.mem_append.mpr (Or.inr (List.mem_singleton.mpr rfl)), ?_⟩
        rw [hde, ← hqd]
        exact List.mem_map_of_mem _ (List.mem_reverse.mp hq)
    · rintro ⟨x, hx, hdx⟩
      rcases List.mem_append.mp hx with h | h
      · exact Or.inl ⟨x, h, hdx⟩
      · rcases List.mem_singleton.mp h with rfl
        rw [hde] at hdx
        obtain ⟨q, hq, hqd⟩ := List.mem_map.mp hdx
        exact Or.inr ⟨q, List.mem_reverse.mpr hq, hqd⟩
  · rcases List.mem_append.mp hx with h | h
    · have hxne : x.2 ≠ s.2 := by
        intro heq
        exact hfresh (heq ▸ List.mem_map_of_mem (fun y => y.2) h)
      rw [mergeOuter_col_old h1 hxne hr']
      constructor
      · rintro ⟨r, hr, hrd, hv⟩
        rw [← hrd]
        exact ((h3 x h r hr).mp hv)
      · intro hd'
        obtain ⟨r, hr, hrd⟩ := (h2 r'.date).mpr ⟨x, h, hd'⟩
        exact ⟨r, hr, hrd, (h3 x h r hr).mpr (hrd ▸ hd')⟩
    · rcases List.mem_singleton.mp h with rfl
      rw [mergeOuter_col_new hfreshvals hr', hde]
      constructor
      · rintro ⟨q, hq, hqd⟩
        rw [← hqd]
        exact List.mem_map_of_mem _ (List.mem_reverse.mp hq)
      · intro hd'
        obtain ⟨q, hq, hqd⟩ := List.mem_map.mp hd'
        exact ⟨q, List.mem_reverse.mpr hq, hqd⟩
  · rw [List.map_append]
    rcases mergeOuter_vals_subset hr' hp with h | ⟨r0, hr0, hp0⟩
    · exact List.mem_append.mpr (Or.inr (by simp [h]))
    · exact List.mem_append.mpr (Or.inl (h4 r0 hr0 p hp0))

/-- The aggregator's loop preserves the invariant across the remaining
symbols, skipping failures. -/
theorem returnsLoop_inv (fetch : String → Option (List (Date × Int))) :
    ∀ (rest ps : List (Date × String)) (t : List RRow),
      aggInv fetch ps t →
      ((ps ++ rest).map (fun x => x.2)).Nodup →
      (∀ s ∈ rest, (((fetch s.2).getD []).map (fun p => p.1)).Nodup) →
      aggInv fetch (ps ++ rest) (returnsLoop fetch t rest) := by
  intro rest
  induction rest with
  | nil =>
    intro ps t hinv _ _
    simpa using hinv
  | cons s rest ih =>
    intro ps t hinv hnd hdnd
    have hfresh : s.2 ∉ ps.map (fun x => x.2) := by
      intro hmem
      rw [List.map_append] at hnd
      exact (List.nodup_append.mp hnd).2.2 hmem (by simp)
    have hassoc : ps ++ s :: rest = (ps ++ [s]) ++ rest := by simp
    have hnd' : (((ps ++ [s]) ++ rest).map (fun x => x.2)).Nodup := by
      rw [← hassoc]; exact hnd
    have hdnd' : ∀ x ∈ rest, (((fetch x.2).getD []).map (fun p => p.1)).Nodup :=
      fun x hx => hdnd x (List.mem_cons_of_mem s hx)
    cases hf : fetch s.2 with
    | none =>
      rw [returnsLoop, hf, hassoc]
      exact ih (ps ++ [s]) t (aggInv_skip hinv hf hfresh) hnd' hdnd'
    | some ser =>
      have hsnd : (ser.map (fun p => p.1)).Nodup := by
        have := hdnd s (List.mem_cons_self s rest)
        rw [hf] at this
        simpa using this
      rw [returnsLoop, hf, hassoc]
      exact ih (ps ++ [s]) _ (aggInv_merge hinv hf hfresh hsnd) hnd' hdnd'

/-- `drop_duplicates("Symbol")` yields pairwise-distinct symbols, none of
which were already seen. -/
theorem dropDupSymbolAux_nodup :
    ∀ (l : List MatchedRow) (seen : List String),
      ((dropDupSymbolAux seen l).map (fun s => s.2)).Nodup ∧
      ∀ s ∈ dropDupSymbolAux seen l, s.2 ∉ seen := by
  intro l
  induction l with
  | nil =>
    intro seen
    exact ⟨List.nodup_nil, by simp [dropDupSymbolAux]⟩
  | cons r l ih =>
    intro seen
    by_cases hmem : r.symbol ∈ seen
    · rw [dropDupSymbolAux, if_pos hmem]
      exact ih seen
    · rw [dropDupSymbolAux, if_neg hmem]
      refine ⟨?_, ?_⟩
      · rw [List.map_cons]
        refine List.nodup_cons.mpr ⟨?_, (ih (r.symbol :: seen)).1⟩
        intro hx
        obtain ⟨x, hx', hx2⟩ := List.mem_map.mp hx
        exact (ih (r.symbol :: seen)).2 x hx' (hx2 ▸ List.mem_cons_self _ _)
      · intro x hx
        rcases List.mem_cons.mp hx with rfl | hx'
        · exact hmem
        · intro hseen
          exact (ih (r.symbol :: seen)).2 x hx' (List.mem_cons_of_mem _ hseen)

/-- The seeded table — the first symbol's reversed series, one row per
entry — satisfies the invariant for the singleton processed list. -/
theorem aggInv_seed (fetch : String → Option (List (Date × Int)))
    (s0 : Date × String) (ser0 : List (Date × Int))
    (hf0 : fetch s0.2 = some ser0)
    (hsnd : (ser0.map (fun p => p.1)).Nodup) :
    aggInv fetch [s0]
      (ser0.reverse.map (fun p => ⟨p.1, [(s0.2, p.2)]⟩)) := by
  have hde : datesOf fetch s0 = ser0.map (fun p => p.1) := by
    simp [datesOf, hf0]
  refine ⟨?_, fun d => ?_, fun x hx r hr => ?_, fun r hr p hp => ?_⟩
  · rw [List.map_map]
    have hco : (RRow.date ∘ fun p : Date × Int =>
        (⟨p.1, [(s0.2, p.2)]⟩ : RRow)) = fun p => p.1 := rfl
    rw [hco, List.map_reverse]
    exact List.nodup_reverse.mpr hsnd
  · constructor
    · rintro ⟨r, hr, rfl⟩
      obtain ⟨q, hq, rfl⟩ := List.mem_map.mp hr
      refine ⟨s0, List.mem_singleton.mpr rfl, ?_⟩
      rw [hde]
      exact List.mem_map_of_mem _ (List.mem_reverse.mp hq)
    · rintro ⟨x, hx, hdx⟩
      rcases List.mem_singleton.mp hx with rfl
      rw [hde] at hdx
      obtain ⟨q, hq, rfl⟩ := List.mem_map.mp hdx
      exact ⟨⟨q.1, [(x.2, q.2)]⟩,
        List.mem_map_of_mem _ (List.mem_reverse.mpr hq), rfl⟩
  · rcases List.mem_singleton.mp hx with rfl
    obtain ⟨q, hq, rfl⟩ := List.mem_map.mp hr
    refine iff_of_true ⟨q.2, by simp⟩ ?_
    rw [hde]
    exact List.mem_map_of_mem _ (List.mem_reverse.mp hq)
  · obtain ⟨q, hq, rfl⟩ := List.mem_map.mp hr
    rcases List.mem_singleton.mp hp with rfl
    simp

/-- C8: when every distinct symbol's history fetch succeeds and each
series has distinct dates, the result has at most one row per date, its
date set is the union of the symbols' trading dates, and each symbol's
column is populated exactly on its own trading dates and absent (a gap)
elsewhere. -/
theorem c8_date_union_and_gaps
    (fetch : String → Option (List (Date × Int))) (tbl : List MatchedRow)
    (t : List RRow)
    (hall : ∀ s ∈ dropDupSymbolAux [] tbl, (fetch s.2).isSome = true)
    (hnd : ∀ s ∈ dropDupSymbolAux [] tbl,
      (((fetch s.2).getD []).map (fun p => p.1)).Nodup)
    (ht : scrape_daily_returns fetch tbl = some t) :
    (t.map RRow.date).Nodup ∧
    (∀ d, (∃ r ∈ t, r.date = d) ↔
      ∃ s ∈ dropDupSymbolAux [] tbl, d ∈ datesOf fetch s) ∧
    (∀ s ∈ dropDupSymbolAux [] tbl, ∀ r ∈ t,
      ((∃ v, (s.2, v) ∈ r.vals) ↔ r.date ∈ datesOf fetch s)) := by
  cases hdd : dropDupSymbolAux [] tbl with
  | nil =>
    simp only [scrape_daily_returns, hdd] at ht
    cases ht
  | cons s0 rest =>
    cases hf0 : fetch s0.2 with
    | none =>
      have := hall s0 (by rw [hdd]; exact List.mem_cons_self s0 rest)
      rw [hf0] at this
      cases this
    | some ser0 =>
      simp only [scrape_daily_returns, hdd, hf0, Option.some.injEq] at ht
      subst ht
      have hs0nd : (ser0.map (fun p => p.1)).Nodup := by
        have := hnd s0 (by rw [hdd]; exact List.mem_cons_self s0 rest)
        rw [hf0] at this
        simpa using this
      have hseed := aggInv_seed fetch s0 ser0 hf0 hs0nd
      have hsymnd : (([s0] ++ rest).map (fun x => x.2)).Nodup := by
        have := (dropDupSymbolAux_nodup tbl []).1
        rw [hdd] at this
        simpa using this
      have hrestnd : ∀ s ∈ rest,
          (((fetch s.2).getD []).map (fun p => p.1)).Nodup :=
        fun s hs => hnd s (by rw [hdd]; exact List.mem_cons_of_mem s0 hs)
      have hinv := returnsLoop_inv fetch rest [s0] _ hseed hsymnd hrestnd
      rw [List.singleton_append] at hinv
      obtain ⟨h1, h2, h3, _⟩ := hinv
      exact ⟨h1, h2, h3⟩

/-- Witness for C8 on the overlapping X/Y example. -/
theorem c8_witness :
    (exResultXY.map RRow.date).Nodup ∧
    ((∃ r ∈ exResultXY, r.date = ⟨2014, 1, 4⟩) ↔
      ∃ s ∈ dropDupSymbolAux [] exTblXY,
        (⟨2014, 1, 4⟩ : Date) ∈ datesOf exFetchXY s) := by
  have h := c8_date_union_and_gaps exFetchXY exTblXY exResultXY
    (by decide) (by decide) (by decide)
  exact ⟨h.1, h.2.1 ⟨2014, 1, 4⟩⟩

/-- Witness for C2 (amended): the first symbol's fetch succeeds, the
second symbol's fetch fails, and a table is still returned. -/
theorem c2_witness :
    ∃ t, scrape_daily_returns exFetch
      [⟨⟨2014, 1, 2⟩, "A", "AAA"⟩, ⟨⟨2014, 1, 2⟩, "B", "BBB"⟩] = some t :=
  (c2_first_fetch_guards_result exFetch
    [⟨⟨2014, 1, 2⟩, "A", "AAA"⟩, ⟨⟨2014, 1, 2⟩, "B", "BBB"⟩]
    (⟨2014, 1, 2⟩, "AAA") [(⟨2014, 1, 2⟩, "BBB")]
    [(⟨2014, 1, 2⟩, 5), (⟨2014, 1, 1⟩, 3)] (by decide) (by decide)).1
